import Mathlib

/-!
Verification of the plugin-metadata loading and configuration-merge pipeline
(`plugin-metadata.ts`, with `deepMerge` imported from `merge-yamls.js`).

The embedding models YAML values as an inductive type, the filesystem and
process environment as an explicit `World` record, and each exported function
of the module as a Lean function over these.
-/

/-- A YAML value, as produced by the YAML parser. -/
inductive Yaml where
  | null : Yaml
  | bool (b : Bool) : Yaml
  | num (n : Int) : Yaml
  | str (s : String) : Yaml
  | arr (xs : List Yaml) : Yaml
  | map (entries : List (String × Yaml)) : Yaml

/-- JavaScript truthiness of a YAML value (`undefined` is modelled by
`Option.none` at use sites). Objects and arrays are always truthy. -/
def Yaml.truthy : Yaml → Bool
  | .null => false
  | .bool b => b
  | .num n => n != 0
  | .str s => !s.isEmpty
  | .arr _ => true
  | .map _ => true

/-- First-match association-list lookup (JS `Map.get` / object property read). -/
def findVal {α : Type} : List (String × α) → String → Option α
  | [], _ => none
  | (k2, v) :: rest, k => if k2 = k then some v else findVal rest k

/-- JS `Map.set`: replace the value at an existing key in place (keeping
insertion order), or append a fresh entry at the end. -/
def mapSet {α : Type} : List (String × α) → String → α → List (String × α)
  | [], k, v => [(k, v)]
  | (k2, v2) :: rest, k, v =>
    if k2 = k then (k, v) :: rest else (k2, v2) :: mapSet rest k v

mutual

/-- Modelled from the spec: `deepMerge` is imported from `merge-yamls.js`,
whose source is not available here; per the spec, mappings merge key-by-key
recursively, and for any key where one side holds a non-mapping value the
override (second) side's value wins outright. Keys of the base keep their
order; keys only in the override are appended in override order. -/
def deepMerge : Yaml → Yaml → Yaml
  | Yaml.map b, Yaml.map o =>
    Yaml.map (mergeEntries b o ++ o.filter (fun e => (findVal b e.1).isNone))
  | _, o => o
termination_by a _ => sizeOf a

/-- Modelled from the spec: the per-key recursive merge of two mappings,
restricted to the keys of the base mapping. -/
def mergeEntries : List (String × Yaml) → List (String × Yaml) → List (String × Yaml)
  | [], _ => []
  | (k, v) :: rest, o =>
    (k, match findVal o k with
        | some w => deepMerge v w
        | none => v) :: mergeEntries rest o
termination_by l _ => sizeOf l

end

/-- Does the list start with the given pattern? (helper for JS `includes`). -/
def startsWithL : List Char → List Char → Bool
  | _, [] => true
  | [], _ :: _ => false
  | c :: cs, p :: ps => c = p && startsWithL cs ps

/-- Does `hay` contain `needle` as a contiguous run? (helper for JS `includes`). -/
def hasSub (needle : List Char) : List Char → Bool
  | [] => needle.isEmpty
  | c :: cs => startsWithL (c :: cs) needle || hasSub needle cs

/-- JS `hay.includes(needle)`: substring containment. -/
def strIncludes (hay needle : String) : Bool :=
  hasSub needle.toList hay.toList

/-- A character the regex character class `[^/:@]` accepts. -/
def isSegChar (c : Char) : Bool :=
  c ≠ '/' && c ≠ ':' && c ≠ '@'

/-- A character JS `.` (without the `s` flag) can match: anything but a line
terminator — `\n`, `\r`, U+2028 (LINE SEPARATOR) or U+2029 (PARAGRAPH
SEPARATOR). -/
def isRegexDot (c : Char) : Bool :=
  c ≠ '\n' && c ≠ '\r' && c ≠ '\u2028' && c ≠ '\u2029'

/-- One attempt of the regex `\/([^\x2f:@]+)(?:[:@].*)?$` at a start position:
`s` is the input after the `/` just consumed. The capture group is the maximal
nonempty run of `[^/:@]` characters; the optional tail must then be either the
end of the input or a `:` or `@` followed by characters `.` can match (any
character but a line terminator) up to the end. Returns the capture group on
success. -/
def matchAfterSlash (s : List Char) : Option (List Char) :=
  let seg := s.takeWhile isSegChar
  let rest := s.dropWhile isSegChar
  if seg.isEmpty then none
  else
    match rest with
    | [] => some seg
    | c :: rs => if (c = ':' || c = '@') && rs.all isRegexDot then some seg else none

/-- JS `String.prototype.match` with the regex above: scan start positions left
to right; a match can only start at a `/`; return the first success. -/
def findMatch : List Char → Option (List Char)
  | [] => none
  | c :: rest =>
    if c = '/' then
      match matchAfterSlash rest with
      | some seg => some seg
      | none => findMatch rest
    else findMatch rest

/-- `extractPluginName` from `plugin-metadata.ts`: strip everything from the
first `!` on, run the regex, and return the capture group, falling back to the
original `packageRef` when there is no match (or an empty capture). -/
def extractPluginName (packageRef : String) : String :=
  let refChars := packageRef.toList.takeWhile (fun c => c ≠ '!')
  match findMatch refChars with
  | some seg => if (String.mk seg).isEmpty then packageRef else String.mk seg
  | none => packageRef


/-- `appConfigExamples` array element of a Package CRD metadata file. -/
structure AppConfigExample where
  title : Option String := none
  content : Option Yaml := none

/-- The `spec` object of a Package CRD metadata file. -/
structure PackageSpec where
  packageName : Option String := none
  dynamicArtifact : Option String := none
  appConfigExamples : Option (List AppConfigExample) := none

/-- Structure of a Package CRD metadata file (all fields optional). -/
structure PackageCRD where
  spec : Option PackageSpec := none

/-- Parsed plugin metadata from a Package CRD file. -/
structure PluginMetadata where
  packagePath : String
  pluginConfig : Yaml
  packageName : String
  sourceFile : String

/-- Plugin entry in `dynamic-plugins.yaml`; `extra` holds the other
passthrough fields allowed by the index signature. -/
structure PluginEntry where
  package : String
  disabled : Option Bool := none
  pluginConfig : Option Yaml := none
  extra : List (String × Yaml) := []

/-- Dynamic plugins configuration structure; `extra` holds the other
passthrough fields allowed by the index signature. -/
structure DynamicPluginsConfig where
  plugins : Option (List PluginEntry) := none
  includes : Option (List String) := none
  extra : List (String × Yaml) := []

/-- The ambient process and filesystem state the module reads: the two
environment variables, `path.resolve`, the `fs` existence checks, the `glob`
over `*.yaml` files of a directory, and the combined read-and-YAML-parse of a
file (`none` models a thrown read or parse error, caught by the code). -/
structure World where
  skipEnv : Option String
  jobName : Option String
  resolve : String → String
  existsSync : String → Bool
  isDirectorySync : String → Bool
  globYaml : String → List String
  readParse : String → Option PackageCRD

/-- JS truthiness of an environment variable (`undefined` or `""` are falsy). -/
def envTruthy : Option String → Bool
  | none => false
  | some s => !s.isEmpty

/-- `shouldInjectPluginMetadata`: enabled by default, disabled by the explicit
opt-out variable or when `JOB_NAME` contains `"periodic-"`. -/
def shouldInjectPluginMetadata (w : World) : Bool :=
  if envTruthy w.skipEnv then false
  else
    let jobName := w.jobName.getD ""
    if strIncludes jobName "periodic-" then false
    else true

/-- `DEFAULT_METADATA_PATH` from `plugin-metadata.ts`. -/
def DEFAULT_METADATA_PATH : String := "../metadata"

/-- `getMetadataDirectory`: resolve the path; return it if it exists and is a
directory, `null` otherwise. -/
def getMetadataDirectory (w : World) (metadataPath : String := DEFAULT_METADATA_PATH) :
    Option String :=
  let resolvedPath := w.resolve metadataPath
  if w.existsSync resolvedPath && w.isDirectorySync resolvedPath then some resolvedPath
  else none

/-- `parseMetadataFile`: read and parse one metadata YAML file; skip (return
`null`) when reading or parsing throws, when `spec.dynamicArtifact` is falsy,
or when `spec.appConfigExamples[0].content` is falsy. -/
def parseMetadataFile (w : World) (filePath : String) : Option PluginMetadata :=
  match w.readParse filePath with
  | none => none
  | some parsed =>
    let packagePath := parsed.spec.bind PackageSpec.dynamicArtifact
    let packageName := parsed.spec.bind PackageSpec.packageName
    let pluginConfig :=
      ((parsed.spec.bind PackageSpec.appConfigExamples).bind List.head?).bind
        AppConfigExample.content
    if !(envTruthy packagePath) then none
    else if !((pluginConfig.map Yaml.truthy).getD false) then none
    else
      some {
        packagePath := packagePath.getD ""
        pluginConfig := pluginConfig.getD Yaml.null
        packageName := packageName.getD ""
        sourceFile := filePath }

/-- `parseAllMetadataFiles`: glob `*.yaml` in the directory, parse each file,
and build the `Map` from extracted plugin name to metadata (insertion order,
`Map.set` overwriting duplicates in place). -/
def parseAllMetadataFiles (w : World) (metadataDir : String) :
    List (String × PluginMetadata) :=
  let files := w.globYaml metadataDir
  files.foldl
    (fun metadataMap file =>
      match parseMetadataFile w file with
      | some metadata => mapSet metadataMap (extractPluginName metadata.packagePath) metadata
      | none => metadataMap)
    []

/-- JS `plugin.pluginConfig || \x7b\x7d`: the user entry's config, or an empty
object when that field is absent or otherwise falsy. -/
def orEmptyMap : Option Yaml → Yaml
  | some y => if y.truthy then y else Yaml.map []
  | none => Yaml.map []

/-- `injectMetadataConfig`: for each plugin entry, look up the metadata map by
extracted plugin name; on a match replace `pluginConfig` by
`deepMerge(metadata.pluginConfig, plugin.pluginConfig || \x7b\x7d)`, otherwise keep
the entry as is. A config without a `plugins` list is returned unchanged. -/
def injectMetadataConfig (dynamicPluginsConfig : DynamicPluginsConfig)
    (metadataMap : List (String × PluginMetadata)) : DynamicPluginsConfig :=
  match dynamicPluginsConfig.plugins with
  | none => dynamicPluginsConfig
  | some plugins =>
    let augmentedPlugins := plugins.map (fun plugin =>
      let pluginName := extractPluginName plugin.package
      match findVal metadataMap pluginName with
      | none => plugin
      | some metadata =>
        { plugin with
          pluginConfig := some (deepMerge metadata.pluginConfig (orEmptyMap plugin.pluginConfig)) })
    { dynamicPluginsConfig with plugins := some augmentedPlugins }

/-- `generateDynamicPluginsConfigFromMetadata`: with metadata handling disabled
return `\x7b plugins: [] \x7d`; otherwise fail if the metadata directory is missing
or yields no valid records, and build one enabled entry per record. -/
def generateDynamicPluginsConfigFromMetadata (w : World)
    (metadataPath : String := DEFAULT_METADATA_PATH) :
    Except String DynamicPluginsConfig :=
  if !shouldInjectPluginMetadata w then
    Except.ok { plugins := some [] }
  else
    match getMetadataDirectory w metadataPath with
    | none =>
      Except.error
        ("[PluginMetadata] Cannot generate dynamic-plugins config: metadata directory not found at: "
          ++ w.resolve metadataPath)
    | some metadataDir =>
      let metadataMap := parseAllMetadataFiles w metadataDir
      if metadataMap.isEmpty then
        Except.error
          ("[PluginMetadata] Cannot generate dynamic-plugins config: no valid metadata files found in "
            ++ metadataDir)
      else
        Except.ok
          { plugins := some (metadataMap.map (fun e =>
              { package := e.2.packagePath
                disabled := some false
                pluginConfig := some e.2.pluginConfig })) }

/-- `loadAndInjectPluginMetadata`: with metadata handling disabled return the
config unchanged; otherwise fail if the metadata directory is missing or yields
no valid records, and inject the metadata into the config. -/
def loadAndInjectPluginMetadata (w : World) (dynamicPluginsConfig : DynamicPluginsConfig)
    (metadataPath : String := DEFAULT_METADATA_PATH) :
    Except String DynamicPluginsConfig :=
  if !shouldInjectPluginMetadata w then
    Except.ok dynamicPluginsConfig
  else
    match getMetadataDirectory w metadataPath with
    | none =>
      Except.error
        ("[PluginMetadata] PR build requires metadata directory but not found at: "
          ++ w.resolve metadataPath)
    | some metadataDir =>
      let metadataMap := parseAllMetadataFiles w metadataDir
      if metadataMap.isEmpty then
        Except.error
          ("[PluginMetadata] PR build requires plugin metadata but no valid metadata files found in "
            ++ metadataDir)
      else
        Except.ok (injectMetadataConfig dynamicPluginsConfig metadataMap)

/-- Scan state for the amended identifier-extraction claims: `true` once no
`:` or `@` has been seen at a position preceded by some `/`. Characters before
the first `/` are unconstrained. -/
def cleanBeforeLastSlash (sawSlash : Bool) : List Char → Bool
  | [] => true
  | c :: cs =>
    if sawSlash ∧ (c = ':' ∨ c = '@') then false
    else cleanBeforeLastSlash (if c = '/' then true else sawSlash) cs

/-- The spec's description of identifier extraction: the last `/`-delimited
segment of the reference (the characters after the final `/`), with any
trailing `:` or `@`-delimited tag or digest suffix stripped. -/
def lastSegmentStripped (r : String) : String :=
  String.mk (((r.toList.reverse.takeWhile (fun c => !(c = '/' : Bool))).reverse).takeWhile
    (fun c => !((c = ':' : Bool) || (c = '@' : Bool))))

/-- The spec's orchestration view of the two entry points over a possibly
absent input document: an absent document routes to full generation, a present
one to injection. -/
def orchestrate (w : World) (metadataPath : String) :
    Option DynamicPluginsConfig → Except String (Option DynamicPluginsConfig)
  | some cfg => (loadAndInjectPluginMetadata w cfg metadataPath).map some
  | none => (generateDynamicPluginsConfigFromMetadata w metadataPath).map some

/-- The per-file outcomes of a directory scan, in directory listing order:
one `(extracted plugin name, metadata)` pair per file whose parse succeeds,
files that fail to parse contributing nothing. -/
def scanEntries (w : World) (metadataDir : String) : List (String × PluginMetadata) :=
  (w.globYaml metadataDir).filterMap (fun file =>
    (parseMetadataFile w file).map (fun metadata =>
      (extractPluginName metadata.packagePath, metadata)))

/-- Build a JS `Map` from a list of insertions. -/
def buildIndex {α : Type} (entries : List (String × α)) : List (String × α) :=
  entries.foldl (fun m e => mapSet m e.1 e.2) []

/-- The value of the last entry carrying a given key, if any. -/
def lastValue {α : Type} (entries : List (String × α)) (k : String) : Option α :=
  findVal entries.reverse k

/-- Sample world: a periodic job name, with a metadata directory present. -/
def worldPeriodic : World where
  skipEnv := none
  jobName := some "periodic-nightly-1"
  resolve := fun p => "/abs/" ++ p
  existsSync := fun _ => true
  isDirectorySync := fun _ => true
  globYaml := fun _ => ["m.yaml"]
  readParse := fun _ => none

/-- Sample world: gating enabled, metadata directory missing. -/
def worldNoDir : World where
  skipEnv := none
  jobName := none
  resolve := fun p => "/abs/" ++ p
  existsSync := fun _ => false
  isDirectorySync := fun _ => false
  globYaml := fun _ => []
  readParse := fun _ => none

/-- Sample world: gating enabled, metadata directory present but empty. -/
def worldEmptyDir : World where
  skipEnv := none
  jobName := none
  resolve := fun p => "/abs/" ++ p
  existsSync := fun _ => true
  isDirectorySync := fun _ => true
  globYaml := fun _ => []
  readParse := fun _ => none

/-- Sample descriptor missing `spec.dynamicArtifact`. -/
def crdNoArtifact : PackageCRD where
  spec := some
    { packageName := some "@scope/x"
      appConfigExamples := some [{ content := some (Yaml.map [("k", Yaml.num 1)]) }] }

/-- Sample descriptor with an empty `spec.appConfigExamples` array. -/
def crdNoContent : PackageCRD where
  spec := some
    { dynamicArtifact := some "./dynamic-plugins/dist/pl-b"
      appConfigExamples := some [] }

/-- Sample valid descriptor for plugin `pl-a` (local path form). -/
def crdA : PackageCRD where
  spec := some
    { packageName := some "@scope/a"
      dynamicArtifact := some "./dynamic-plugins/dist/pl-a"
      appConfigExamples := some [{ content := some (Yaml.map [("ka", Yaml.num 1)]) }] }

/-- Sample valid descriptor whose artifact is an OCI reference to the same
plugin name `pl-a` as `crdA`. -/
def crdADup : PackageCRD where
  spec := some
    { packageName := some "@scope/a2"
      dynamicArtifact := some "oci://quay.io/rhdh/pl-a:1.0"
      appConfigExamples := some [{ content := some (Yaml.map [("kb", Yaml.num 2)]) }] }

/-- Sample valid descriptor for plugin `pl-c`. -/
def crdC : PackageCRD where
  spec := some
    { packageName := some "@scope/c"
      dynamicArtifact := some "./dynamic-plugins/dist/pl-c"
      appConfigExamples := some [{ content := some (Yaml.map [("kc", Yaml.num 3)]) }] }

/-- Sample world whose metadata directory holds an unreadable file, two
invalid descriptors, and three valid ones (two for the same plugin name). -/
def worldScan : World where
  skipEnv := none
  jobName := none
  resolve := fun p => "/abs/" ++ p
  existsSync := fun _ => true
  isDirectorySync := fun _ => true
  globYaml := fun _ => ["bad.yaml", "noart.yaml", "nocontent.yaml", "a.yaml", "adup.yaml", "c.yaml"]
  readParse := fun f =>
    if f = "noart.yaml" then some crdNoArtifact
    else if f = "nocontent.yaml" then some crdNoContent
    else if f = "a.yaml" then some crdA
    else if f = "adup.yaml" then some crdADup
    else if f = "c.yaml" then some crdC
    else none

/-- Sample metadata record for `my-plugin`. -/
def mdSample : PluginMetadata where
  packagePath := "./dynamic-plugins/dist/my-plugin"
  pluginConfig := Yaml.map [("a", Yaml.map [("x", Yaml.num 1), ("y", Yaml.num 2)])]
  packageName := "@scope/my-plugin"
  sourceFile := "m.yaml"

/-- Sample metadata index holding only `my-plugin`. -/
def sampleIndex : List (String × PluginMetadata) := [("my-plugin", mdSample)]

/-- Sample plugin entry that matches `my-plugin` through an OCI reference. -/
def entryMatched : PluginEntry where
  package := "oci://quay.io/rhdh/my-plugin:1.0.0"
  disabled := some false
  pluginConfig := some (Yaml.map [("a", Yaml.map [("y", Yaml.num 99)])])
  extra := [("flags", Yaml.arr [Yaml.str "f1"])]

/-- Sample plugin entry with no metadata match and no `pluginConfig`. -/
def entryUnmatched : PluginEntry where
  package := "./dynamic-plugins/dist/other-plugin"

/-- Sample configuration document holding both sample entries. -/
def sampleCfg : DynamicPluginsConfig where
  plugins := some [entryMatched, entryUnmatched]
  includes := some ["dynamic-plugins.default.yaml"]
  extra := [("note", Yaml.str "n")]

/-- Sample configuration document without a `plugins` list. -/
def cfgNoPlugins : DynamicPluginsConfig where
  includes := some ["dynamic-plugins.default.yaml"]
  extra := [("note", Yaml.null)]

theorem mem_of_mem_takeWhile {α : Type} (p : α → Bool) :
    ∀ (l : List α) (x : α), x ∈ l.takeWhile p → x ∈ l
  | [], _, h => by simp [List.takeWhile] at h
  | a :: l, x, h => by
    by_cases hpa : p a
    · rw [List.takeWhile_cons_of_pos hpa] at h
      rcases List.mem_cons.mp h with rfl | h2
      · exact List.mem_cons_self _ _
      · exact List.mem_cons_of_mem _ (mem_of_mem_takeWhile p l x h2)
    · rw [List.takeWhile_cons_of_neg (by simpa using hpa)] at h
      simp at h

theorem takeWhile_of_all {α : Type} (p : α → Bool) :
    ∀ (l : List α), (∀ x ∈ l, p x = true) → l.takeWhile p = l
  | [], _ => rfl
  | a :: l, h => by
    rw [List.takeWhile_cons_of_pos (h a (List.mem_cons_self _ _))]
    rw [takeWhile_of_all p l (fun x hx => h x (List.mem_cons_of_mem _ hx))]

theorem takeWhile_congr_mem {α : Type} (p q : α → Bool) :
    ∀ (l : List α), (∀ x ∈ l, p x = q x) → l.takeWhile p = l.takeWhile q
  | [], _ => rfl
  | a :: l, h => by
    have ha := h a (List.mem_cons_self _ _)
    by_cases hpa : p a
    · rw [List.takeWhile_cons_of_pos hpa, List.takeWhile_cons_of_pos (ha ▸ hpa)]
      rw [takeWhile_congr_mem p q l (fun x hx => h x (List.mem_cons_of_mem _ hx))]
    · have hpa2 : p a = false := by simpa using hpa
      rw [List.takeWhile_cons_of_neg (by simp [hpa2]), List.takeWhile_cons_of_neg (by simp [← ha, hpa2])]

theorem takeWhile_append_stop {α : Type} (p : α → Bool) (x : α) (b : List α) (hx : p x = false) :
    ∀ (a : List α), (∀ y ∈ a, p y = true) → (a ++ x :: b).takeWhile p = a
  | [], _ => by rw [List.nil_append, List.takeWhile_cons_of_neg (by simp [hx])]
  | y :: a, h => by
    rw [List.cons_append, List.takeWhile_cons_of_pos (h y (List.mem_cons_self _ _))]
    rw [takeWhile_append_stop p x b hx a (fun z hz => h z (List.mem_cons_of_mem _ hz))]

theorem mem_of_mem_dropWhile {α : Type} (p : α → Bool) :
    ∀ (l : List α) (x : α), x ∈ l.dropWhile p → x ∈ l
  | [], _, h => by simp [List.dropWhile] at h
  | a :: l, x, h => by
    by_cases hpa : p a
    · rw [List.dropWhile_cons_of_pos hpa] at h
      exact List.mem_cons_of_mem _ (mem_of_mem_dropWhile p l x h)
    · rw [List.dropWhile_cons_of_neg (by simpa using hpa)] at h
      exact h

theorem head_dropWhile_not {α : Type} (p : α → Bool) :
    ∀ (l : List α) (c : α) (rs : List α), l.dropWhile p = c :: rs → p c = false
  | [], c, rs, h => by simp [List.dropWhile] at h
  | a :: l, c, rs, h => by
    by_cases hpa : p a
    · rw [List.dropWhile_cons_of_pos hpa] at h
      exact head_dropWhile_not p l c rs h
    · rw [List.dropWhile_cons_of_neg (by simpa using hpa)] at h
      cases h
      simpa using hpa

theorem dropWhile_sep (ys : List Char) :
    ∀ (xs : List Char), (∀ c ∈ xs, ¬(c = ':' ∨ c = '@')) →
      ∃ zs, (xs ++ '/' :: ys).dropWhile isSegChar = '/' :: zs
  | [], _ => ⟨ys, by rw [List.nil_append, List.dropWhile_cons_of_neg (by simp [isSegChar])]⟩
  | c :: cs, h => by
    by_cases hseg : isSegChar c
    · obtain ⟨zs, hzs⟩ := dropWhile_sep ys cs (fun d hd => h d (List.mem_cons_of_mem _ hd))
      exact ⟨zs, by rw [List.cons_append, List.dropWhile_cons_of_pos hseg, hzs]⟩
    · have hne := h c (List.mem_cons_self _ _)
      push_neg at hne
      have hc : c = '/' := by
        simp only [isSegChar, Bool.and_eq_true, decide_eq_true_eq, ne_eq] at hseg
        by_contra hslash
        exact hseg ⟨⟨hslash, hne.1⟩, hne.2⟩
      subst hc
      exact ⟨cs ++ '/' :: ys, by
        rw [List.cons_append, List.dropWhile_cons_of_neg (by simpa using hseg)]⟩

theorem matchAfterSlash_sep (xs ys : List Char)
    (h : ∀ c ∈ xs, ¬(c = ':' ∨ c = '@')) :
    matchAfterSlash (xs ++ '/' :: ys) = none := by
  obtain ⟨zs, hzs⟩ := dropWhile_sep ys xs h
  unfold matchAfterSlash
  rw [hzs]
  by_cases hseg : ((xs ++ '/' :: ys).takeWhile isSegChar).isEmpty
  · simp [hseg]
  · simp [hseg]

theorem findMatch_append_clean (tail : List Char) :
    ∀ (init : List Char), (∀ c ∈ init, ¬(c = ':' ∨ c = '@')) →
      findMatch (init ++ '/' :: tail) = findMatch ('/' :: tail)
  | [], _ => rfl
  | c :: cs, h => by
    have hcs : ∀ d ∈ cs, ¬(d = ':' ∨ d = '@') := fun d hd => h d (List.mem_cons_of_mem _ hd)
    by_cases hc : c = '/'
    · subst hc
      rw [List.cons_append]
      show findMatch ('/' :: (cs ++ '/' :: tail)) = _
      unfold findMatch
      rw [if_pos rfl, matchAfterSlash_sep cs tail hcs]
      exact findMatch_append_clean tail cs hcs
    · rw [List.cons_append]
      show findMatch (c :: (cs ++ '/' :: tail)) = _
      unfold findMatch
      rw [if_neg hc]
      exact findMatch_append_clean tail cs hcs

theorem clean_no_colon :
    ∀ (l : List Char), cleanBeforeLastSlash true l = true → ∀ c ∈ l, ¬(c = ':' ∨ c = '@')
  | [], _, c, hc => by simp at hc
  | c :: cs, h, d, hd => by
    unfold cleanBeforeLastSlash at h
    by_cases hc : c = ':' ∨ c = '@'
    · rw [if_pos ⟨rfl, hc⟩] at h
      exact absurd h (by simp)
    · rw [if_neg (by simpa using hc)] at h
      rcases List.mem_cons.mp hd with rfl | hd2
      · exact hc
      · have h2 : cleanBeforeLastSlash true cs = true := by
          by_cases hcc : c = '/'
          · rwa [if_pos hcc] at h
          · rwa [if_neg hcc] at h
        exact clean_no_colon cs h2 d hd2

theorem findMatch_append_lastSlash (tail : List Char) :
    ∀ (init : List Char), cleanBeforeLastSlash false init = true →
      findMatch (init ++ '/' :: tail) = findMatch ('/' :: tail)
  | [], _ => rfl
  | c :: cs, h => by
    unfold cleanBeforeLastSlash at h
    rw [if_neg (by simp)] at h
    by_cases hc : c = '/'
    · rw [if_pos hc] at h
      subst hc
      have hcs := clean_no_colon cs h
      rw [List.cons_append]
      show findMatch ('/' :: (cs ++ '/' :: tail)) = _
      unfold findMatch
      rw [if_pos rfl, matchAfterSlash_sep cs tail hcs]
      exact findMatch_append_clean tail cs hcs
    · rw [if_neg hc] at h
      rw [List.cons_append]
      show findMatch (c :: (cs ++ '/' :: tail)) = _
      unfold findMatch
      rw [if_neg hc]
      exact findMatch_append_lastSlash tail cs h

theorem matchAfterSlash_full (tail : List Char) (c0 : Char) (t2 : List Char)
    (htail : tail = c0 :: t2) (hslash : '/' ∉ tail) (hc0 : ¬(c0 = ':' ∨ c0 = '@'))
    (hnl : ∀ d ∈ tail, isRegexDot d = true) :
    matchAfterSlash tail = some (tail.takeWhile isSegChar) := by
  push_neg at hc0
  have hseg0 : isSegChar c0 = true := by
    simp only [isSegChar, Bool.and_eq_true, decide_eq_true_eq, ne_eq]
    refine ⟨⟨fun hc => hslash (htail ▸ (hc ▸ List.mem_cons_self _ _)), hc0.1⟩, hc0.2⟩
  have hne : ¬(tail.takeWhile isSegChar).isEmpty := by
    rw [htail, List.takeWhile_cons_of_pos hseg0]
    simp
  unfold matchAfterSlash
  rw [if_neg hne]
  rcases hrest : tail.dropWhile isSegChar with _ | ⟨c, rs⟩
  · rfl
  · have hcbad : isSegChar c = false := head_dropWhile_not isSegChar tail c rs hrest
    have hcmem : c ∈ tail := mem_of_mem_dropWhile isSegChar tail c (by rw [hrest]; exact List.mem_cons_self _ _)
    have hcslash : ¬(c = '/') := fun hc => hslash (hc ▸ hcmem)
    have hcor : (c = ':' ∨ c = '@') := by
      simp only [isSegChar, Bool.and_eq_true, decide_eq_true_eq, ne_eq, Bool.and_eq_false_iff] at hcbad
      rcases hcbad with hcbad1 | hcbad2
      · rcases hcbad1 with h1 | h2
        · exact absurd (by simpa using h1) hcslash
        · exact Or.inl (by simpa using h2)
      · exact Or.inr (by simpa using hcbad2)
    have hrs : rs.all isRegexDot = true := by
      rw [List.all_eq_true]
      intro d hd
      exact hnl d (mem_of_mem_dropWhile isSegChar tail d
        (by rw [hrest]; exact List.mem_cons_of_mem _ hd))
    have hcond : ((decide (c = ':') || decide (c = '@')) && rs.all isRegexDot) = true := by
      rw [hrs, Bool.and_true]
      rcases hcor with h | h <;> simp [h]
    show (if ((decide (c = ':') || decide (c = '@')) && rs.all isRegexDot) = true then
        some (List.takeWhile isSegChar tail) else none) = some (List.takeWhile isSegChar tail)
    rw [if_pos hcond]

theorem findMatch_at_lastSlash (tail : List Char) (c0 : Char) (t2 : List Char)
    (htail : tail = c0 :: t2) (hslash : '/' ∉ tail) (hc0 : ¬(c0 = ':' ∨ c0 = '@'))
    (hnl : ∀ d ∈ tail, isRegexDot d = true) :
    findMatch ('/' :: tail) = some (tail.takeWhile isSegChar) := by
  unfold findMatch
  rw [if_pos rfl, matchAfterSlash_full tail c0 t2 htail hslash hc0 hnl]

theorem findMatch_no_slash :
    ∀ (l : List Char), '/' ∉ l → findMatch l = none
  | [], _ => rfl
  | c :: cs, h => by
    have hcne : ¬(c = '/') := by
      intro hc
      exact h (by rw [hc]; exact List.mem_cons_self _ _)
    unfold findMatch
    rw [if_neg hcne]
    exact findMatch_no_slash cs (fun hc => h (List.mem_cons_of_mem _ hc))

theorem findMatch_ends_slash :
    ∀ (l : List Char), (∀ c ∈ l, ¬(c = ':' ∨ c = '@')) →
      (∃ a, l = a ++ ['/']) → findMatch l = none
  | [], _, _ => rfl
  | c :: cs, h, ⟨a, ha⟩ => by
    have hcs2 : ∀ d ∈ cs, ¬(d = ':' ∨ d = '@') := fun d hd => h d (List.mem_cons_of_mem _ hd)
    rcases a with _ | ⟨a0, a2⟩
    · rw [List.nil_append] at ha
      cases ha
      rfl
    · rw [List.cons_append] at ha
      injection ha with hc0 hcs0
      by_cases hc : c = '/'
      · subst hc
        unfold findMatch
        rw [if_pos rfl]
        have hma : matchAfterSlash cs = none := by
          rw [hcs0]
          exact matchAfterSlash_sep a2 []
            (fun d hd => hcs2 d (by rw [hcs0]; exact List.mem_append_left _ hd))
        rw [hma]
        exact findMatch_ends_slash cs hcs2 ⟨a2, hcs0⟩
      · unfold findMatch
        rw [if_neg hc]
        exact findMatch_ends_slash cs hcs2 ⟨a2, hcs0⟩

theorem matchAfterSlash_some (s : List Char) (seg : List Char)
    (h : matchAfterSlash s = some seg) :
    seg = s.takeWhile isSegChar ∧ seg ≠ [] := by
  unfold matchAfterSlash at h
  by_cases hseg : (s.takeWhile isSegChar).isEmpty
  · rw [if_pos hseg] at h
    exact absurd h (by simp)
  · rw [if_neg hseg] at h
    have hne : s.takeWhile isSegChar ≠ [] := by
      intro hnil
      rw [hnil] at hseg
      exact hseg rfl
    rcases hrest : s.dropWhile isSegChar with _ | ⟨c, rs⟩
    · rw [hrest] at h
      have h2 : some (s.takeWhile isSegChar) = some seg := h
      injection h2 with h3
      exact ⟨h3.symm, h3 ▸ hne⟩
    · rw [hrest] at h
      have h2 : (if ((decide (c = ':') || decide (c = '@')) && rs.all isRegexDot) = true
          then some (s.takeWhile isSegChar) else none) = some seg := h
      split at h2
      · injection h2 with h3
        exact ⟨h3.symm, h3 ▸ hne⟩
      · exact absurd h2 (by simp)

theorem findMatch_some_spec :
    ∀ (l : List Char) (seg : List Char), findMatch l = some seg →
      seg ≠ [] ∧ ∀ c ∈ seg, c ∈ l
  | [], seg, h => absurd h (by simp [findMatch])
  | c :: cs, seg, h => by
    unfold findMatch at h
    by_cases hc : c = '/'
    · rw [if_pos hc] at h
      rcases hma : matchAfterSlash cs with _ | s2
      · rw [hma] at h
        obtain ⟨h1, h2⟩ := findMatch_some_spec cs seg h
        exact ⟨h1, fun d hd => List.mem_cons_of_mem _ (h2 d hd)⟩
      · rw [hma] at h
        injection h with h3
        obtain ⟨hseg, hne⟩ := matchAfterSlash_some cs s2 hma
        refine ⟨h3 ▸ hne, fun d hd => ?_⟩
        rw [← h3, hseg] at hd
        exact List.mem_cons_of_mem _ (mem_of_mem_takeWhile isSegChar cs d hd)
    · rw [if_neg hc] at h
      obtain ⟨h1, h2⟩ := findMatch_some_spec cs seg h
      exact ⟨h1, fun d hd => List.mem_cons_of_mem _ (h2 d hd)⟩

theorem prop_of_mem_takeWhile {α : Type} (p : α → Bool) :
    ∀ (l : List α) (x : α), x ∈ l.takeWhile p → p x = true
  | [], _, h => by simp [List.takeWhile] at h
  | a :: l, x, h => by
    by_cases hpa : p a
    · rw [List.takeWhile_cons_of_pos hpa] at h
      rcases List.mem_cons.mp h with rfl | h2
      · exact hpa
      · exact prop_of_mem_takeWhile p l x h2
    · rw [List.takeWhile_cons_of_neg (by simpa using hpa)] at h
      simp at h

theorem mk_isEmpty_false (seg : List Char) (h : seg ≠ []) :
    (String.mk seg).isEmpty = false := by
  rw [Bool.eq_false_iff]
  intro he
  have h1 : String.mk seg = "" := (String.isEmpty_iff _).mp he
  have h2 : seg = [] := by simpa using congrArg String.data h1
  exact h h2

/-- Unfolding equation for `extractPluginName`. -/
theorem extractPluginName_eq (r : String) :
    extractPluginName r =
      match findMatch (r.toList.takeWhile (fun c => (c ≠ '!' : Bool))) with
      | some seg => if (String.mk seg).isEmpty then r else String.mk seg
      | none => r := by
  unfold extractPluginName
  rfl

/-- Claim C4 (amended): for every reference containing `!`, when the regex
finds a match on the prefix before the first `!`, `extractPluginName` returns
that capture — derived only from the prefix and never containing the `!` or
the alias after it; when the regex finds no match on the prefix, the fallback
returns the whole original reference, `!` and alias included. -/
theorem extractPluginName_alias_cases (r : String) (hbang : '!' ∈ r.toList) :
    (∀ seg, findMatch (r.toList.takeWhile (fun c => (c ≠ '!' : Bool))) = some seg →
      extractPluginName r = String.mk seg ∧ '!' ∉ seg) ∧
    (findMatch (r.toList.takeWhile (fun c => (c ≠ '!' : Bool))) = none →
      extractPluginName r = r) := by
  constructor
  · intro seg hseg
    obtain ⟨hne, hsub⟩ := findMatch_some_spec _ seg hseg
    refine ⟨?_, ?_⟩
    · rw [extractPluginName_eq, hseg]
      show (if (String.mk seg).isEmpty = true then r else String.mk seg) = String.mk seg
      rw [mk_isEmpty_false seg hne]
      simp
    · intro hmem
      have hc := prop_of_mem_takeWhile _ _ '!' (hsub '!' hmem)
      simp at hc
  · intro hnone
    rw [extractPluginName_eq, hnone]

/-- Claim C5, counterexample: in `"a/b@x/c"` the regex of `extractPluginName`
matches at the first `/` (the `@` lets the optional tail span the later `/`),
returning `"b"`, not the last `/`-delimited segment `"c"` the claim names. -/
theorem extractPluginName_lastSegment_counterexample :
    extractPluginName "a/b@x/c" = "b" ∧ lastSegmentStripped "a/b@x/c" = "c" ∧
    extractPluginName "a/b@x/c" ≠ lastSegmentStripped "a/b@x/c" :=
  ⟨by decide, by decide, by decide⟩

/-- Claim C5 (amended): for a reference without `!` whose last `/` is followed
by at least one character other than `:` and `@`, whose final segment contains
no line terminator (`\n`, `\r`, U+2028, U+2029), and in which no `:` or `@`
occurs after a `/` but before the last `/`, `extractPluginName` returns the
last `/`-delimited segment with any trailing `:`- or `@`-delimited suffix
stripped. -/
theorem extractPluginName_lastSegment (r : String) (init tail : List Char)
    (hdecomp : r.toList = init ++ '/' :: tail)
    (hslash : '/' ∉ tail)
    (hbang : '!' ∉ r.toList)
    (hnl : ∀ d ∈ tail, isRegexDot d = true)
    (hclean : cleanBeforeLastSlash false init = true)
    (c0 : Char) (t2 : List Char) (htail : tail = c0 :: t2)
    (hc0 : ¬(c0 = ':' ∨ c0 = '@')) :
    extractPluginName r = lastSegmentStripped r ∧
    lastSegmentStripped r = String.mk (tail.takeWhile isSegChar) := by
  have hpre : r.toList.takeWhile (fun c => (c ≠ '!' : Bool)) = r.toList :=
    takeWhile_of_all _ r.toList (fun x hx => by
      simp only [decide_eq_true_eq]
      intro h
      exact hbang (h ▸ hx))
  have hfm : findMatch r.toList = some (tail.takeWhile isSegChar) := by
    rw [hdecomp, findMatch_append_lastSlash tail init hclean]
    exact findMatch_at_lastSlash tail c0 t2 htail hslash hc0 hnl
  have hc0good : isSegChar c0 = true := by
    push_neg at hc0
    simp only [isSegChar, Bool.and_eq_true, decide_eq_true_eq, ne_eq]
    exact ⟨⟨fun h => hslash (by rw [htail, h]; exact List.mem_cons_self _ _), hc0.1⟩, hc0.2⟩
  have hsegne : tail.takeWhile isSegChar ≠ [] := by
    rw [htail, List.takeWhile_cons_of_pos hc0good]
    simp
  have hmain : extractPluginName r = String.mk (tail.takeWhile isSegChar) := by
    rw [extractPluginName_eq, hpre, hfm]
    show (if (String.mk (tail.takeWhile isSegChar)).isEmpty = true then r
        else String.mk (tail.takeWhile isSegChar)) = String.mk (tail.takeWhile isSegChar)
    rw [mk_isEmpty_false _ hsegne]
    simp
  have hrev : r.toList.reverse = tail.reverse ++ '/' :: init.reverse := by
    rw [hdecomp]
    simp
  have hstop : (r.toList.reverse).takeWhile (fun c => !(c = '/' : Bool)) = tail.reverse := by
    rw [hrev]
    refine takeWhile_append_stop _ '/' init.reverse (by simp) tail.reverse (fun y hy => ?_)
    rw [List.mem_reverse] at hy
    simp only [Bool.not_eq_true', decide_eq_false_iff_not]
    exact fun h => hslash (h ▸ hy)
  have hlast : lastSegmentStripped r = String.mk (tail.takeWhile isSegChar) := by
    unfold lastSegmentStripped
    rw [hstop, List.reverse_reverse]
    congr 1
    exact takeWhile_congr_mem _ _ tail (fun x hx => by
      have hx7 : ¬(x = '/') := fun h => hslash (h ▸ hx)
      simp [isSegChar, hx7, Bool.not_or, decide_not])
  exact ⟨hmain.trans hlast.symm, hlast⟩

/-- Claim C6, counterexample: `"a/b:c/"` ends in `/`, yet `extractPluginName`
does not fall back to the original reference — the `:` lets the regex match at
the first `/` and return `"b"`. -/
theorem extractPluginName_endSlash_counterexample :
    "a/b:c/".toList.getLast? = some '/' ∧
    extractPluginName "a/b:c/" = "b" ∧
    extractPluginName "a/b:c/" ≠ "a/b:c/" :=
  ⟨by decide, by decide, by decide⟩

/-- Claim C6 (amended): `extractPluginName` is total on all strings; the empty
string returns the empty string; a string with no `/` is returned unchanged;
and a string ending in `/` falls back to the original reference provided it
contains no `:`, `@` or `!` (otherwise the regex can still match earlier, as
the counterexample shows). -/
theorem extractPluginName_edge_cases :
    extractPluginName "" = "" ∧
    (∀ r : String, '/' ∉ r.toList → extractPluginName r = r) ∧
    (∀ r : String, (∃ a, r.toList = a ++ ['/']) →
      (∀ c ∈ r.toList, ¬(c = ':' ∨ c = '@' ∨ c = '!')) → extractPluginName r = r) := by
  refine ⟨by decide, ?_, ?_⟩
  · intro r hr
    have hnone : findMatch (r.toList.takeWhile (fun c => (c ≠ '!' : Bool))) = none :=
      findMatch_no_slash _ (fun hc => hr (mem_of_mem_takeWhile _ _ '/' hc))
    rw [extractPluginName_eq, hnone]
  · intro r hends hforb
    have hpre : r.toList.takeWhile (fun c => (c ≠ '!' : Bool)) = r.toList :=
      takeWhile_of_all _ r.toList (fun x hx => by
        simp only [decide_eq_true_eq]
        intro h
        exact (hforb x hx) (Or.inr (Or.inr h)))
    have hnone : findMatch (r.toList.takeWhile (fun c => (c ≠ '!' : Bool))) = none := by
      rw [hpre]
      exact findMatch_ends_slash r.toList
        (fun c hc => fun hor => (hforb c hc) (hor.elim Or.inl (fun h => Or.inr (Or.inl h)))) hends
    rw [extractPluginName_eq, hnone]

/-- Witness for the amended C4 claim at a concrete aliased reference. -/
theorem extractPluginName_alias_cases_witness :
    extractPluginName "a/b!alias" = String.mk ['b'] ∧ '!' ∉ ['b'] :=
  (extractPluginName_alias_cases "a/b!alias" (by decide)).1 ['b'] (by decide)

/-- Witness for the amended C5 claim at a concrete OCI reference with a
digest suffix. -/
theorem extractPluginName_lastSegment_witness :
    extractPluginName "oci://quay.io/rhdh/plugin@sha256:abc" =
      lastSegmentStripped "oci://quay.io/rhdh/plugin@sha256:abc" :=
  (extractPluginName_lastSegment "oci://quay.io/rhdh/plugin@sha256:abc"
    "oci://quay.io/rhdh".toList "plugin@sha256:abc".toList
    (by decide) (by decide) (by decide) (by decide) (by decide)
    'p' "lugin@sha256:abc".toList (by decide) (by decide)).1

/-- Witness for the amended C6 claim at concrete edge-case inputs. -/
theorem extractPluginName_edge_cases_witness :
    extractPluginName "no-slash" = "no-slash" ∧ extractPluginName "ab/" = "ab/" :=
  ⟨extractPluginName_edge_cases.2.1 "no-slash" (by decide),
   extractPluginName_edge_cases.2.2 "ab/" ⟨['a', 'b'], by decide⟩ (by decide)⟩

/-- Claim C4, counterexample: for `"abc!alias"` the prefix before `!` has no
`/`, the regex finds no match, and the fallback returns the whole original
reference — including the `!` and the alias the claim says are discarded. -/
theorem extractPluginName_alias_counterexample :
    extractPluginName "abc!alias" = "abc!alias" ∧
    strIncludes (extractPluginName "abc!alias") "!alias" = true :=
  ⟨by decide, by decide⟩

theorem findVal_nil {α : Type} (k : String) : findVal ([] : List (String × α)) k = none := rfl

theorem findVal_cons {α : Type} (k2 : String) (v2 : α) (rest : List (String × α)) (k : String) :
    findVal ((k2, v2) :: rest) k = if k2 = k then some v2 else findVal rest k := rfl

theorem findVal_mergeEntries (o : List (String × Yaml)) :
    ∀ (b : List (String × Yaml)) (k : String),
      findVal (mergeEntries b o) k =
        (findVal b k).map (fun v =>
          match findVal o k with
          | some w => deepMerge v w
          | none => v)
  | [], k => by simp [mergeEntries, findVal_nil]
  | (k2, v2) :: rest, k => by
    rw [mergeEntries]
    rw [findVal_cons, findVal_cons]
    by_cases h : k2 = k
    · subst h
      rw [if_pos rfl, if_pos rfl]
      rfl
    · rw [if_neg h, if_neg h, findVal_mergeEntries o rest k]

theorem findVal_append {α : Type} :
    ∀ (l1 l2 : List (String × α)) (k : String),
      findVal (l1 ++ l2) k =
        match findVal l1 k with
        | some v => some v
        | none => findVal l2 k
  | [], l2, k => by rw [List.nil_append]; rfl
  | (k2, v2) :: rest, l2, k => by
    rw [List.cons_append, findVal_cons, findVal_cons]
    by_cases h : k2 = k
    · rw [if_pos h, if_pos h]
    · rw [if_neg h, if_neg h, findVal_append rest l2 k]

theorem findVal_filter_notbase {α : Type} (b : List (String × α)) :
    ∀ (o : List (String × α)) (k : String),
      findVal (o.filter (fun e => (findVal b e.1).isNone)) k =
        if (findVal b k).isNone then findVal o k else none
  | [], k => by
    cases hb : (findVal b k).isNone <;> simp [findVal_nil, hb]
  | (k2, v2) :: rest, k => by
    simp only [List.filter_cons]
    cases hkeep : (findVal b k2).isNone with
    | true =>
      rw [if_pos rfl, findVal_cons]
      by_cases h : k2 = k
      · subst h
        rw [if_pos rfl, if_pos hkeep, findVal_cons, if_pos rfl]
      · rw [if_neg h, findVal_filter_notbase b rest k, findVal_cons, if_neg h]
    | false =>
      rw [if_neg (by simp), findVal_filter_notbase b rest k]
      by_cases h : k2 = k
      · subst h
        rw [if_neg (by simp [hkeep]), if_neg (by simp [hkeep])]
      · rw [findVal_cons, if_neg h]

theorem deepMerge_map_map (b o : List (String × Yaml)) :
    deepMerge (Yaml.map b) (Yaml.map o) =
      Yaml.map (mergeEntries b o ++ o.filter (fun e => (findVal b e.1).isNone)) := by
  rw [deepMerge]

theorem deepMerge_override (v w : Yaml)
    (h : (∀ mb, v ≠ Yaml.map mb) ∨ (∀ mo, w ≠ Yaml.map mo)) :
    deepMerge v w = w := by
  cases v <;> cases w
  case map.map b o =>
    rcases h with h | h
    · exact absurd rfl (h b)
    · exact absurd rfl (h o)
  all_goals rw [deepMerge]
  all_goals intro a1 a2 h1 h2
  all_goals cases h1 <;> cases h2

theorem findVal_deepMerge_entries (b o : List (String × Yaml)) (k : String) :
    findVal (mergeEntries b o ++ o.filter (fun e => (findVal b e.1).isNone)) k =
      match findVal b k, findVal o k with
      | some v, some w => some (deepMerge v w)
      | some v, none => some v
      | none, fo => fo := by
  rw [findVal_append, findVal_mergeEntries]
  cases hb : findVal b k with
  | some v =>
    cases ho : findVal o k with
    | some w => simp [ho]
    | none => simp [ho]
  | none =>
    rw [findVal_filter_notbase]
    simp [hb]

theorem injectMetadataConfig_some (cfg : DynamicPluginsConfig)
    (m : List (String × PluginMetadata)) (ps : List PluginEntry)
    (hps : cfg.plugins = some ps) :
    injectMetadataConfig cfg m =
      { cfg with plugins := some (ps.map (fun plugin =>
          match findVal m (extractPluginName plugin.package) with
          | none => plugin
          | some metadata =>
            { plugin with
              pluginConfig :=
                some (deepMerge metadata.pluginConfig (orEmptyMap plugin.pluginConfig)) })) } := by
  unfold injectMetadataConfig
  rw [hps]

/-- Claim C1: for every plugins-configuration document and metadata index, a
plugin entry whose extracted identifier has a metadata match gets
`pluginConfig = deepMerge(metadataRecord.config, entry.pluginConfig ?? \x7b\x7d)`
(the entry's own `pluginConfig` being a mapping or absent, per its type); in
the merge, mappings merge key-by-key recursively, the user-supplied (override)
value wins at every key where either side is a non-mapping, and keys present
in only one side are kept. -/
theorem injectMetadataConfig_merge_spec :
    (∀ (cfg : DynamicPluginsConfig) (m : List (String × PluginMetadata)) (ps : List PluginEntry),
      cfg.plugins = some ps →
      ∀ (i : Nat) (hi : i < ps.length) (md : PluginMetadata),
        findVal m (extractPluginName (ps.get ⟨i, hi⟩).package) = some md →
        ((ps.get ⟨i, hi⟩).pluginConfig = none ∨
          ∃ em, (ps.get ⟨i, hi⟩).pluginConfig = some (Yaml.map em)) →
        ∃ (qs : List PluginEntry) (hq : i < qs.length),
          (injectMetadataConfig cfg m).plugins = some qs ∧
          (qs.get ⟨i, hq⟩).pluginConfig =
            some (deepMerge md.pluginConfig
              ((ps.get ⟨i, hi⟩).pluginConfig.getD (Yaml.map [])))) ∧
    (∀ b o, deepMerge (Yaml.map b) (Yaml.map o) =
      Yaml.map (mergeEntries b o ++ o.filter (fun e => (findVal b e.1).isNone))) ∧
    (∀ b o k, findVal (mergeEntries b o ++ o.filter (fun e => (findVal b e.1).isNone)) k =
      match findVal b k, findVal o k with
      | some v, some w => some (deepMerge v w)
      | some v, none => some v
      | none, fo => fo) ∧
    (∀ v w : Yaml, ((∀ mb, v ≠ Yaml.map mb) ∨ (∀ mo, w ≠ Yaml.map mo)) → deepMerge v w = w) := by
  refine ⟨?_, deepMerge_map_map, findVal_deepMerge_entries, deepMerge_override⟩
  intro cfg m ps hps i hi md hmd hwf
  rw [injectMetadataConfig_some cfg m ps hps]
  refine ⟨ps.map (fun plugin =>
      match findVal m (extractPluginName plugin.package) with
      | none => plugin
      | some metadata =>
        { plugin with
          pluginConfig :=
            some (deepMerge metadata.pluginConfig (orEmptyMap plugin.pluginConfig)) }),
    by rw [List.length_map]; exact hi, rfl, ?_⟩
  have hget : (ps.map (fun plugin =>
      match findVal m (extractPluginName plugin.package) with
      | none => plugin
      | some metadata =>
        { plugin with
          pluginConfig :=
            some (deepMerge metadata.pluginConfig (orEmptyMap plugin.pluginConfig)) })).get
        ⟨i, by rw [List.length_map]; exact hi⟩ =
      (fun plugin =>
      match findVal m (extractPluginName plugin.package) with
      | none => plugin
      | some metadata =>
        { plugin with
          pluginConfig :=
            some (deepMerge metadata.pluginConfig (orEmptyMap plugin.pluginConfig)) })
        (ps.get ⟨i, hi⟩) := by
    simp [List.get_eq_getElem, List.getElem_map]
  rw [hget]
  show (match findVal m (extractPluginName (ps.get ⟨i, hi⟩).package) with
      | none => ps.get ⟨i, hi⟩
      | some metadata =>
        { ps.get ⟨i, hi⟩ with
          pluginConfig :=
            some (deepMerge metadata.pluginConfig
              (orEmptyMap (ps.get ⟨i, hi⟩).pluginConfig)) }).pluginConfig =
    some (deepMerge md.pluginConfig ((ps.get ⟨i, hi⟩).pluginConfig.getD (Yaml.map [])))
  rw [hmd]
  rcases hwf with hnone | ⟨em, hsome⟩
  · rw [hnone]
    rfl
  · rw [hsome]
    rfl

/-- Witness for C1: the sample OCI-referenced entry gets the deep merge of the
sample metadata config with its own override, and the spec's override example
evaluates as stated. -/
theorem injectMetadataConfig_merge_spec_witness :
    (∃ (qs : List PluginEntry) (hq : 0 < qs.length),
      (injectMetadataConfig sampleCfg sampleIndex).plugins = some qs ∧
      (qs.get ⟨0, hq⟩).pluginConfig =
        some (deepMerge mdSample.pluginConfig (Yaml.map [("a", Yaml.map [("y", Yaml.num 99)])]))) ∧
    deepMerge (Yaml.map [("a", Yaml.map [("x", Yaml.num 1), ("y", Yaml.num 2)])])
        (Yaml.map [("a", Yaml.map [("y", Yaml.num 99)])]) =
      Yaml.map [("a", Yaml.map [("x", Yaml.num 1), ("y", Yaml.num 99)])] := by
  constructor
  · obtain ⟨qs, hq, h1, h2⟩ := injectMetadataConfig_merge_spec.1 sampleCfg sampleIndex
      [entryMatched, entryUnmatched] rfl 0 (by decide) mdSample rfl
      (Or.inr ⟨[("a", Yaml.map [("y", Yaml.num 99)])], rfl⟩)
    exact ⟨qs, hq, h1, h2⟩
  · simp [deepMerge, mergeEntries, findVal]

theorem injectMetadataConfig_none (cfg : DynamicPluginsConfig)
    (m : List (String × PluginMetadata)) (hps : cfg.plugins = none) :
    injectMetadataConfig cfg m = cfg := by
  unfold injectMetadataConfig
  rw [hps]

/-- Claim C2: `injectMetadataConfig` changes nothing except the `pluginConfig`
of matched entries — a document without a plugins list is returned unchanged,
the `includes` and other passthrough fields are untouched, the plugin list is
a 1:1 positional transform of the input (same length, same order), an
unmatched entry is returned verbatim (absent `pluginConfig` included), and a
matched entry keeps `package`, `disabled` and its passthrough fields. -/
theorem injectMetadataConfig_frame :
    ∀ (cfg : DynamicPluginsConfig) (m : List (String × PluginMetadata)),
      (cfg.plugins = none → injectMetadataConfig cfg m = cfg) ∧
      (injectMetadataConfig cfg m).includes = cfg.includes ∧
      (injectMetadataConfig cfg m).extra = cfg.extra ∧
      (∀ ps, cfg.plugins = some ps →
        ∃ qs, (injectMetadataConfig cfg m).plugins = some qs ∧
          qs.length = ps.length ∧
          ∀ (i : Nat) (hi : i < ps.length) (hq : i < qs.length),
            (findVal m (extractPluginName (ps.get ⟨i, hi⟩).package) = none →
              qs.get ⟨i, hq⟩ = ps.get ⟨i, hi⟩) ∧
            (qs.get ⟨i, hq⟩).package = (ps.get ⟨i, hi⟩).package ∧
            (qs.get ⟨i, hq⟩).disabled = (ps.get ⟨i, hi⟩).disabled ∧
            (qs.get ⟨i, hq⟩).extra = (ps.get ⟨i, hi⟩).extra) := by
  intro cfg m
  cases hcp : cfg.plugins with
  | none =>
    rw [injectMetadataConfig_none cfg m hcp]
    exact ⟨fun _ => rfl, rfl, rfl, fun ps hps => absurd hps (by simp)⟩
  | some ps0 =>
    rw [injectMetadataConfig_some cfg m ps0 hcp]
    refine ⟨fun h => absurd h (by simp), rfl, rfl, fun ps hps => ?_⟩
    · have hps0 : ps = ps0 := by
        simpa using hps.symm
      subst hps0
      refine ⟨_, rfl, List.length_map ps _, fun i hi hq => ?_⟩
      have hget : (ps.map (fun plugin =>
          match findVal m (extractPluginName plugin.package) with
          | none => plugin
          | some metadata =>
            { plugin with
              pluginConfig :=
                some (deepMerge metadata.pluginConfig (orEmptyMap plugin.pluginConfig)) })).get
            ⟨i, hq⟩ =
          (match findVal m (extractPluginName (ps.get ⟨i, hi⟩).package) with
          | none => ps.get ⟨i, hi⟩
          | some metadata =>
            { ps.get ⟨i, hi⟩ with
              pluginConfig :=
                some (deepMerge metadata.pluginConfig
                  (orEmptyMap (ps.get ⟨i, hi⟩).pluginConfig)) }) := by
        simp [List.get_eq_getElem, List.getElem_map]
      rw [hget]
      constructor
      · intro hfnone
        rw [hfnone]
      · cases hf : findVal m (extractPluginName (ps.get ⟨i, hi⟩).package) with
        | none => exact ⟨rfl, rfl, rfl⟩
        | some metadata => exact ⟨rfl, rfl, rfl⟩

/-- Witness for C2: the no-plugins sample document is returned unchanged, and
in the sample document the unmatched entry comes back verbatim at its
position. -/
theorem injectMetadataConfig_frame_witness :
    injectMetadataConfig cfgNoPlugins sampleIndex = cfgNoPlugins ∧
    ∃ qs, (injectMetadataConfig sampleCfg sampleIndex).plugins = some qs ∧
      qs.length = 2 ∧ ∀ hq : 1 < qs.length, qs.get ⟨1, hq⟩ = entryUnmatched := by
  constructor
  · exact (injectMetadataConfig_frame cfgNoPlugins sampleIndex).1 rfl
  · obtain ⟨qs, h1, h2, h3⟩ :=
      (injectMetadataConfig_frame sampleCfg sampleIndex).2.2.2 [entryMatched, entryUnmatched] rfl
    refine ⟨qs, h1, by rw [h2]; rfl, fun hq => ?_⟩
    have hfm : findVal sampleIndex
        (extractPluginName (([entryMatched, entryUnmatched] : List PluginEntry).get
          ⟨1, by decide⟩).package) = none := rfl
    exact (h3 1 (by decide) hq).1 hfm

/-- Claim C3 (amended): whenever the gating policy is disabled (the opt-out
variable holds a truthy value, or `JOB_NAME` contains `"periodic-"`),
`loadAndInjectPluginMetadata` returns its input document unchanged regardless
of metadata directory contents, while `generateDynamicPluginsConfigFromMetadata`
— which takes no input document — returns the fresh empty configuration
`\x7b plugins: [] \x7d`, not an absent value. -/
theorem gating_disabled_passthrough :
    ∀ (w : World) (cfg : DynamicPluginsConfig) (mp : String),
      (envTruthy w.skipEnv = true ∨ strIncludes (w.jobName.getD "") "periodic-" = true) →
      loadAndInjectPluginMetadata w cfg mp = Except.ok cfg ∧
      generateDynamicPluginsConfigFromMetadata w mp =
        Except.ok { plugins := some [], includes := none, extra := [] } := by
  intro w cfg mp h
  have hg : shouldInjectPluginMetadata w = false := by
    unfold shouldInjectPluginMetadata
    by_cases he : envTruthy w.skipEnv = true
    · rw [if_pos he]
    · rw [if_neg he]
      show (if strIncludes (w.jobName.getD "") "periodic-" = true then false else true) = false
      rcases h with h | h
      · exact absurd h he
      · rw [if_pos h]
  constructor
  · simp [loadAndInjectPluginMetadata, hg]
  · simp [generateDynamicPluginsConfigFromMetadata, hg]

/-- Claim C3, counterexample: with `JOB_NAME = "periodic-nightly-1"` gating is
disabled, yet full generation does not return its absent input unchanged — the
orchestration over an absent document produces the concrete document
`\x7b plugins: [] \x7d`. -/
theorem gating_disabled_counterexample :
    shouldInjectPluginMetadata worldPeriodic = false ∧
    orchestrate worldPeriodic DEFAULT_METADATA_PATH none ≠ Except.ok none := by
  constructor
  · decide
  · intro h
    have heval : orchestrate worldPeriodic DEFAULT_METADATA_PATH none =
        Except.ok (some { plugins := some [], includes := none, extra := [] }) := rfl
    rw [heval] at h
    exact absurd h (by simp)

/-- Witness for the amended C3 claim at the periodic-job sample world. -/
theorem gating_disabled_passthrough_witness :
    loadAndInjectPluginMetadata worldPeriodic sampleCfg DEFAULT_METADATA_PATH =
      Except.ok sampleCfg ∧
    generateDynamicPluginsConfigFromMetadata worldPeriodic DEFAULT_METADATA_PATH =
      Except.ok { plugins := some [], includes := none, extra := [] } :=
  gating_disabled_passthrough worldPeriodic sampleCfg DEFAULT_METADATA_PATH (Or.inr (by decide))

theorem startsWithL_self : ∀ (s : List Char), startsWithL s s = true
  | [] => rfl
  | c :: cs => by
    show (c = c && startsWithL cs cs) = true
    rw [startsWithL_self cs]
    simp

theorem hasSub_append_self (s : List Char) : ∀ (a : List Char), hasSub s (a ++ s) = true
  | [] => by
    rw [List.nil_append]
    cases s with
    | nil => rfl
    | cons c cs =>
      show (startsWithL (c :: cs) (c :: cs) || hasSub (c :: cs) cs) = true
      rw [startsWithL_self]
      simp
  | c :: a2 => by
    rw [List.cons_append]
    show (startsWithL (c :: (a2 ++ s)) s || hasSub s (a2 ++ s)) = true
    rw [hasSub_append_self s a2]
    simp

theorem strIncludes_append (p s : String) : strIncludes (p ++ s) s = true := by
  unfold strIncludes
  rw [show (p ++ s).toList = p.toList ++ s.toList from rfl]
  exact hasSub_append_self s.toList p.toList

/-- Claim C7: with gating enabled, `generateDynamicPluginsConfigFromMetadata`
fails (returns an error) in exactly two situations — the metadata directory is
not found, or it is found but yields zero valid metadata records — and in the
directory-not-found case the error message names the resolved path of the
requested metadata directory. -/
theorem generate_fatal_exactly :
    ∀ (w : World) (mp : String), shouldInjectPluginMetadata w = true →
      ((∃ e, generateDynamicPluginsConfigFromMetadata w mp = Except.error e) ↔
        (getMetadataDirectory w mp = none ∨
          ∃ d, getMetadataDirectory w mp = some d ∧ parseAllMetadataFiles w d = [])) ∧
      (getMetadataDirectory w mp = none →
        generateDynamicPluginsConfigFromMetadata w mp =
          Except.error
            ("[PluginMetadata] Cannot generate dynamic-plugins config: metadata directory not found at: "
              ++ w.resolve mp) ∧
        ∀ e, generateDynamicPluginsConfigFromMetadata w mp = Except.error e →
          strIncludes e (w.resolve mp) = true) := by
  intro w mp hg
  cases hdir : getMetadataDirectory w mp with
  | none =>
    have hgen : generateDynamicPluginsConfigFromMetadata w mp =
        Except.error
          ("[PluginMetadata] Cannot generate dynamic-plugins config: metadata directory not found at: "
            ++ w.resolve mp) := by
      unfold generateDynamicPluginsConfigFromMetadata
      rw [hg, if_neg (by simp), hdir]
    refine ⟨⟨fun _ => Or.inl rfl, fun _ => ⟨_, hgen⟩⟩, fun _ => ⟨hgen, fun e he => ?_⟩⟩
    rw [hgen] at he
    injection he with he2
    rw [← he2]
    exact strIncludes_append _ _
  | some d =>
    have hgen : generateDynamicPluginsConfigFromMetadata w mp =
        (if (parseAllMetadataFiles w d).isEmpty then
          Except.error
            ("[PluginMetadata] Cannot generate dynamic-plugins config: no valid metadata files found in "
              ++ d)
        else
          Except.ok
            { plugins := some ((parseAllMetadataFiles w d).map (fun e =>
                { package := e.2.packagePath
                  disabled := some false
                  pluginConfig := some e.2.pluginConfig })) }) := by
      unfold generateDynamicPluginsConfigFromMetadata
      rw [hg, if_neg (by simp), hdir]
    by_cases hemp : (parseAllMetadataFiles w d).isEmpty = true
    · rw [if_pos hemp] at hgen
      exact ⟨⟨fun _ => Or.inr ⟨d, rfl, by simpa using hemp⟩, fun _ => ⟨_, hgen⟩⟩,
        fun hcontra => absurd hcontra (by simp)⟩
    · rw [if_neg hemp] at hgen
      refine ⟨⟨fun ⟨e, he⟩ => ?_, fun hor => ?_⟩, fun hcontra => absurd hcontra (by simp)⟩
      · rw [hgen] at he
        exact absurd he (by simp)
      · rcases hor with hcontra | ⟨d2, hd2, hpempty⟩
        · exact absurd hcontra (by simp)
        · have hdd : d = d2 := by simpa using hd2
          subst hdd
          rw [hpempty] at hemp
          exact absurd rfl hemp

/-- Witness for C7: at the missing-directory sample world the generation call
rejects with the exact directory-not-found message, the message contains the
resolved path, and at the empty-directory sample world it also rejects. -/
theorem generate_fatal_exactly_witness :
    generateDynamicPluginsConfigFromMetadata worldNoDir "/no/such/dir" =
      Except.error
        ("[PluginMetadata] Cannot generate dynamic-plugins config: metadata directory not found at: "
          ++ worldNoDir.resolve "/no/such/dir") ∧
    (∀ e, generateDynamicPluginsConfigFromMetadata worldNoDir "/no/such/dir" = Except.error e →
      strIncludes e (worldNoDir.resolve "/no/such/dir") = true) ∧
    ∃ e, generateDynamicPluginsConfigFromMetadata worldEmptyDir DEFAULT_METADATA_PATH =
      Except.error e := by
  obtain ⟨h1, h2⟩ := (generate_fatal_exactly worldNoDir "/no/such/dir" rfl).2 rfl
  refine ⟨h1, h2, ?_⟩
  exact (generate_fatal_exactly worldEmptyDir DEFAULT_METADATA_PATH rfl).1.mpr
    (Or.inr ⟨worldEmptyDir.resolve DEFAULT_METADATA_PATH, rfl, rfl⟩)

/-- Claim C10: when gating is enabled and the metadata directory exists but
yields zero valid metadata records, `loadAndInjectPluginMetadata` throws — it
does not pass the input document through, even when that document already has
a populated plugins list. -/
theorem loadAndInject_zero_records :
    ∀ (w : World) (cfg : DynamicPluginsConfig) (mp d : String),
      shouldInjectPluginMetadata w = true →
      getMetadataDirectory w mp = some d →
      parseAllMetadataFiles w d = [] →
      loadAndInjectPluginMetadata w cfg mp =
        Except.error
          ("[PluginMetadata] PR build requires plugin metadata but no valid metadata files found in "
            ++ d) := by
  intro w cfg mp d hg hdir hemp
  unfold loadAndInjectPluginMetadata
  rw [hg, if_neg (by simp), hdir]
  show (if (parseAllMetadataFiles w d).isEmpty then
      Except.error
        ("[PluginMetadata] PR build requires plugin metadata but no valid metadata files found in "
          ++ d)
    else Except.ok (injectMetadataConfig cfg (parseAllMetadataFiles w d))) = _
  rw [hemp]
  simp

/-- Witness for C10: at the empty-directory sample world, injection of the
populated sample document throws the zero-records error. -/
theorem loadAndInject_zero_records_witness :
    loadAndInjectPluginMetadata worldEmptyDir sampleCfg DEFAULT_METADATA_PATH =
      Except.error
        ("[PluginMetadata] PR build requires plugin metadata but no valid metadata files found in "
          ++ worldEmptyDir.resolve DEFAULT_METADATA_PATH) ∧
    sampleCfg.plugins ≠ none ∧ sampleCfg.plugins ≠ some [] := by
  refine ⟨loadAndInject_zero_records worldEmptyDir sampleCfg DEFAULT_METADATA_PATH
    (worldEmptyDir.resolve DEFAULT_METADATA_PATH) rfl rfl rfl, ?_, ?_⟩
  · simp [sampleCfg]
  · simp [sampleCfg]

theorem scan_fold_eq (w : World) :
    ∀ (files : List String) (init : List (String × PluginMetadata)),
      files.foldl (fun metadataMap file =>
        match parseMetadataFile w file with
        | some metadata => mapSet metadataMap (extractPluginName metadata.packagePath) metadata
        | none => metadataMap) init =
      (files.filterMap (fun file => (parseMetadataFile w file).map (fun metadata =>
        (extractPluginName metadata.packagePath, metadata)))).foldl
        (fun m e => mapSet m e.1 e.2) init
  | [], _ => rfl
  | f :: fs, init => by
    rw [List.foldl_cons, List.filterMap_cons]
    cases hp : parseMetadataFile w f with
    | none =>
      simp only [hp, Option.map_none']
      exact scan_fold_eq w fs init
    | some metadata =>
      simp only [hp, Option.map_some']
      rw [List.foldl_cons]
      exact scan_fold_eq w fs _

theorem parseAll_eq_buildIndex (w : World) (dir : String) :
    parseAllMetadataFiles w dir = buildIndex (scanEntries w dir) := by
  unfold parseAllMetadataFiles scanEntries buildIndex
  exact scan_fold_eq w (w.globYaml dir) []

theorem findVal_mapSet {α : Type} :
    ∀ (m : List (String × α)) (k : String) (v : α) (k2 : String),
      findVal (mapSet m k v) k2 = if k = k2 then some v else findVal m k2
  | [], k, v, k2 => by
    show findVal [(k, v)] k2 = _
    rw [findVal_cons, findVal_nil]
  | (ka, va) :: rest, k, v, k2 => by
    show findVal (if ka = k then (k, v) :: rest else (ka, va) :: mapSet rest k v) k2 = _
    by_cases hak : ka = k
    · rw [if_pos hak, findVal_cons, findVal_cons]
      by_cases hk2 : k = k2
      · rw [if_pos hk2, if_pos hk2]
      · rw [if_neg hk2, if_neg hk2, if_neg (fun h => hk2 (hak ▸ h))]
    · rw [if_neg hak, findVal_cons, findVal_cons]
      by_cases h2 : ka = k2
      · have hkk2 : ¬(k = k2) := fun hk => hak (h2.trans hk.symm)
        rw [if_pos h2, if_neg hkk2, if_pos h2]
      · rw [if_neg h2, if_neg h2, findVal_mapSet rest k v k2]

theorem mem_keys_mapSet {α : Type} :
    ∀ (m : List (String × α)) (k : String) (v : α) (x : String),
      x ∈ (mapSet m k v).map Prod.fst → x ∈ m.map Prod.fst ∨ x = k
  | [], k, v, x, hx => by
    simp [mapSet] at hx
    exact Or.inr hx
  | (ka, va) :: rest, k, v, x, hx => by
    rw [show mapSet ((ka, va) :: rest) k v =
        if ka = k then (k, v) :: rest else (ka, va) :: mapSet rest k v from rfl] at hx
    by_cases hak : ka = k
    · rw [if_pos hak, List.map_cons] at hx
      rcases List.mem_cons.mp hx with rfl | hx2
      · exact Or.inr rfl
      · exact Or.inl (by rw [List.map_cons]; exact List.mem_cons_of_mem _ hx2)
    · rw [if_neg hak, List.map_cons] at hx
      rcases List.mem_cons.mp hx with rfl | hx2
      · exact Or.inl (by rw [List.map_cons]; exact List.mem_cons_self _ _)
      · rcases mem_keys_mapSet rest k v x hx2 with h | h
        · exact Or.inl (by rw [List.map_cons]; exact List.mem_cons_of_mem _ h)
        · exact Or.inr h

theorem nodup_keys_mapSet {α : Type} :
    ∀ (m : List (String × α)) (k : String) (v : α),
      (m.map Prod.fst).Nodup → ((mapSet m k v).map Prod.fst).Nodup
  | [], k, v, _ => by simp [mapSet]
  | (ka, va) :: rest, k, v, h => by
    rw [List.map_cons, List.nodup_cons] at h
    obtain ⟨ha, hrest⟩ := h
    rw [show mapSet ((ka, va) :: rest) k v =
        if ka = k then (k, v) :: rest else (ka, va) :: mapSet rest k v from rfl]
    by_cases hak : ka = k
    · rw [if_pos hak]
      rw [List.map_cons, List.nodup_cons]
      exact ⟨hak ▸ ha, hrest⟩
    · rw [if_neg hak]
      rw [List.map_cons, List.nodup_cons]
      refine ⟨fun hmem => ?_, nodup_keys_mapSet rest k v hrest⟩
      rcases mem_keys_mapSet rest k v ka hmem with h | h
      · exact ha h
      · exact hak h

theorem findVal_foldl_mapSet {α : Type} :
    ∀ (entries : List (String × α)) (init : List (String × α)) (k : String),
      findVal (entries.foldl (fun m e => mapSet m e.1 e.2) init) k =
        match findVal entries.reverse k with
        | some v => some v
        | none => findVal init k
  | [], init, k => rfl
  | e :: es, init, k => by
    rw [List.foldl_cons, findVal_foldl_mapSet es (mapSet init e.1 e.2) k]
    rw [List.reverse_cons, findVal_append, findVal_mapSet]
    cases hfe : findVal es.reverse k with
    | some v => rfl
    | none =>
      show (if e.1 = k then some e.2 else findVal init k) =
        (match findVal [e] k with
          | some v => some v
          | none => findVal init k)
      rw [show findVal [e] k = if e.1 = k then some e.2 else none from rfl]
      by_cases he : e.1 = k
      · rw [if_pos he, if_pos he]
      · rw [if_neg he, if_neg he]

theorem nodup_keys_foldl {α : Type} :
    ∀ (entries : List (String × α)) (init : List (String × α)),
      (init.map Prod.fst).Nodup →
      ((entries.foldl (fun m e => mapSet m e.1 e.2) init).map Prod.fst).Nodup
  | [], _, h => h
  | e :: es, init, h => by
    rw [List.foldl_cons]
    exact nodup_keys_foldl es _ (nodup_keys_mapSet init e.1 e.2 h)

/-- Claim C9: every identifier in the metadata index maps to exactly one
record (the key list has no duplicates), and the record stored under an
identifier is the one of the last-processed file yielding that identifier —
later files overwrite earlier ones. -/
theorem parseAll_last_wins :
    ∀ (w : World) (dir : String),
      ((parseAllMetadataFiles w dir).map Prod.fst).Nodup ∧
      ∀ k, findVal (parseAllMetadataFiles w dir) k = lastValue (scanEntries w dir) k := by
  intro w dir
  rw [parseAll_eq_buildIndex]
  constructor
  · exact nodup_keys_foldl _ _ (by simp)
  · intro k
    unfold buildIndex lastValue
    rw [findVal_foldl_mapSet]
    cases h : findVal (scanEntries w dir).reverse k with
    | some v => rfl
    | none => rfl

/-- Witness for C9 (the claim theorem itself has no hypothesis): at the sample
scan world, `a.yaml` and `adup.yaml` both yield identifier `"pl-a"` and the
later file's record wins; the key list is duplicate-free. -/
theorem parseAll_last_wins_witness :
    ((parseAllMetadataFiles worldScan "d").map Prod.fst).Nodup ∧
    findVal (parseAllMetadataFiles worldScan "d") "pl-a" =
      lastValue (scanEntries worldScan "d") "pl-a" ∧
    (parseAllMetadataFiles worldScan "d").map Prod.fst = ["pl-a", "pl-c"] ∧
    (findVal (parseAllMetadataFiles worldScan "d") "pl-a").map PluginMetadata.sourceFile =
      some "adup.yaml" := by
  obtain ⟨h1, h2⟩ := parseAll_last_wins worldScan "d"
  exact ⟨h1, h2 "pl-a", rfl, rfl⟩

theorem parseMetadataFile_eq_none (w : World) (f : String) (h : w.readParse f = none) :
    parseMetadataFile w f = none := by
  unfold parseMetadataFile
  rw [h]

theorem parseMetadataFile_eq_some (w : World) (f : String) (crd : PackageCRD)
    (h : w.readParse f = some crd) :
    parseMetadataFile w f =
      (if !(envTruthy (crd.spec.bind PackageSpec.dynamicArtifact)) then none
       else if !(((((crd.spec.bind PackageSpec.appConfigExamples).bind List.head?).bind
           AppConfigExample.content).map Yaml.truthy).getD false) then none
       else some {
         packagePath := (crd.spec.bind PackageSpec.dynamicArtifact).getD ""
         pluginConfig :=
           (((crd.spec.bind PackageSpec.appConfigExamples).bind List.head?).bind
             AppConfigExample.content).getD Yaml.null
         packageName := (crd.spec.bind PackageSpec.packageName).getD ""
         sourceFile := f }) := by
  unfold parseMetadataFile
  rw [h]

/-- Claim C8: per-file descriptor parsing fails softly — a file whose read or
parse throws, whose `spec.dynamicArtifact` is absent, whose
`spec.appConfigExamples` is absent or empty, or whose first example's
`content` is absent or empty (null) yields no record instead of an error —
and the directory scan is exactly the index built from the per-file outcomes,
so the remaining files are still covered. -/
theorem parseMetadataFile_soft_fail :
    ∀ (w : World) (f : String),
      (w.readParse f = none → parseMetadataFile w f = none) ∧
      (∀ crd, w.readParse f = some crd →
        (crd.spec.bind PackageSpec.dynamicArtifact = none → parseMetadataFile w f = none) ∧
        (crd.spec.bind PackageSpec.appConfigExamples = none ∨
          crd.spec.bind PackageSpec.appConfigExamples = some [] →
          parseMetadataFile w f = none) ∧
        (((crd.spec.bind PackageSpec.appConfigExamples).bind List.head?).bind
            AppConfigExample.content = none ∨
          ((crd.spec.bind PackageSpec.appConfigExamples).bind List.head?).bind
            AppConfigExample.content = some Yaml.null →
          parseMetadataFile w f = none)) ∧
      (∀ dir, parseAllMetadataFiles w dir = buildIndex (scanEntries w dir)) := by
  intro w f
  refine ⟨parseMetadataFile_eq_none w f, fun crd hcrd => ?_,
    fun dir => parseAll_eq_buildIndex w dir⟩
  have heq := parseMetadataFile_eq_some w f crd hcrd
  refine ⟨fun hart => ?_, fun hex => ?_, fun hcont => ?_⟩
  · rw [heq, hart]
    simp [envTruthy]
  · have hcont2 : ((crd.spec.bind PackageSpec.appConfigExamples).bind List.head?).bind
        AppConfigExample.content = none := by
      rcases hex with hex | hex <;> simp [hex]
    rw [heq, hcont2]
    simp
  · rcases hcont with hcont | hcont <;> rw [heq, hcont] <;> simp [Yaml.truthy]

/-- Witness for C8: at the sample scan world the unreadable file and the two
invalid descriptors yield no record, while the scan still indexes the three
valid files. -/
theorem parseMetadataFile_soft_fail_witness :
    parseMetadataFile worldScan "bad.yaml" = none ∧
    parseMetadataFile worldScan "noart.yaml" = none ∧
    parseMetadataFile worldScan "nocontent.yaml" = none ∧
    parseAllMetadataFiles worldScan "d" = buildIndex (scanEntries worldScan "d") ∧
    (scanEntries worldScan "d").map Prod.fst = ["pl-a", "pl-a", "pl-c"] :=
  ⟨(parseMetadataFile_soft_fail worldScan "bad.yaml").1 rfl,
    ((parseMetadataFile_soft_fail worldScan "noart.yaml").2.1 crdNoArtifact rfl).1 rfl,
    (((parseMetadataFile_soft_fail worldScan "nocontent.yaml").2.1 crdNoContent rfl).2.1
      (Or.inr rfl)),
    (parseMetadataFile_soft_fail worldScan "nocontent.yaml").2.2 "d", rfl⟩
